import Mathlib

/-!
Shallow embedding of `lazymath/lazyclasses.py`, a deferred-computation
expression framework: an abstract node contract (`LazyAbstract`) with memoized
`eval`, variant-specific `calculate`, operator composition, comparison
delegation, and textual representations; concrete variants `LazyVal`,
`LazySum`, `LazyProd`, `LazyNeg`, and the `LazyFuncFactory`-generated
`LazyFunc`.

The payload domain is modelled by `Val` (Python ints plus the `NotEvaluated`
sentinel, which is the unique instance of `NotEvaluatedType` in this model).
Python exceptions are modelled by `Except Err`.  The per-object mutable
`_value` cache cell is modelled by threading the updated node through every
state-changing operation: a function returning `... × Node` returns the node
with the caches its Python counterpart would have written.
-/

set_option maxHeartbeats 1000000

/-- Python values the claims exercise: ints, and the `NotEvaluated` sentinel
(the unique `NotEvaluatedType` instance of the model; the source docstring
notes the class is a singleton unless instantiated again explicitly). -/
inductive Val where
  | int (n : Int)
  | notEvaluated
deriving DecidableEq, Repr

/-- Python exceptions that the modelled code can raise. -/
inductive Err where
  | typeError
  | notImplementedError
  | userError (msg : String)
deriving DecidableEq, Repr

/-- Type of a wrapped callable passed to `LazyFuncFactory`: positional
arguments, keyword arguments, and a possibly-raising result. -/
def Fn : Type := List Val → List (String × Val) → Except Err Val

mutual
/-- One heap object of the `LazyAbstract` hierarchy.  Every constructor's
first field is the `_value` slot from `LazyAbstract.__init__` (initially
`NotEvaluated`); for `LazyVal` the single field is `_value` itself, since
`LazyVal.__init__` overwrites the slot with the payload.  `LazySum._terms`
and `LazyProd._terms` hold nodes only (the constructors wrap raw values);
`LazyNeg._arg` and `LazyFunc._args`/`_kwargs` hold whatever was passed,
node or raw, hence `Arg`. -/
inductive Node where
  | LazyVal (value : Val)
  | LazySum (cache : Val) (terms : List Node)
  | LazyProd (cache : Val) (terms : List Node)
  | LazyNeg (cache : Val) (arg : Arg)
  | LazyFunc (cache : Val) (fname : String) (func : Fn) (args : List Arg)
      (kwargs : List (String × Arg))

/-- A stored argument: either a raw Python value or a `LazyAbstract` node
(the `isinstance(x, LazyAbstract)` distinction of the source). -/
inductive Arg where
  | raw (v : Val)
  | node (n : Node)
end

/-- Python unary minus on a value: integer negation for ints;
`NotEvaluatedType.__neg__` returns `self`. -/
def Val.neg : Val → Val
  | .int n => .int (-n)
  | .notEvaluated => .notEvaluated

/-- The `_value` slot of a node. -/
def cacheOf : Node → Val
  | .LazyVal v => v
  | .LazySum c _ => c
  | .LazyProd c _ => c
  | .LazyNeg c _ => c
  | .LazyFunc c _ _ _ _ => c

/-- The assignment `self._value = ...` performed by `LazyAbstract.eval`. -/
def setCache : Node → Val → Node
  | .LazyVal _, v => .LazyVal v
  | .LazySum _ ts, v => .LazySum v ts
  | .LazyProd _ ts, v => .LazyProd v ts
  | .LazyNeg _ a, v => .LazyNeg v a
  | .LazyFunc _ nm f xs ks, v => .LazyFunc v nm f xs ks

/-- The wrapping lambda of `LazySum.__init__` / `LazyProd.__init__`:
`x if isinstance(x, LazyAbstract) else LazyVal(x)`. -/
def toNode : Arg → Node
  | .node n => n
  | .raw v => .LazyVal v

/-- Whether a node is a `LazySum` (the `isinstance(other, LazySum)` test). -/
def isSum : Node → Bool
  | .LazySum _ _ => true
  | _ => false

/-- Whether a node is a `LazyProd` (the `isinstance(other, LazyProd)` test). -/
def isProd : Node → Bool
  | .LazyProd _ _ => true
  | _ => false

/-- The `_terms` tuple of a `LazySum`/`LazyProd` (empty for other variants). -/
def termsOf : Node → List Node
  | .LazySum _ ts => ts
  | .LazyProd _ ts => ts
  | _ => []

/-- Number of children of a `LazySum`/`LazyProd` node. -/
def numTerms (n : Node) : Nat := (termsOf n).length

/-- The term list a node contributes when placed into a `LazySum` by `+`:
its own `_terms` if it is a `LazySum`, else itself as a single element. -/
def sumTermsOf (n : Node) : List Node := if isSum n then termsOf n else [n]

/-- The term list a node contributes when placed into a `LazyProd` by `*`. -/
def prodTermsOf (n : Node) : List Node := if isProd n then termsOf n else [n]

/-- The `_args` tuple of a `LazyFunc` node (empty for other variants). -/
def argsOf : Node → List Arg
  | .LazyFunc _ _ _ xs _ => xs
  | _ => []

/-- The `_kwargs` mapping of a `LazyFunc` node (empty for other variants). -/
def kwargsOf : Node → List (String × Arg)
  | .LazyFunc _ _ _ _ ks => ks
  | _ => []

/-- Whether a stored argument is a node (rather than a raw value). -/
def Arg.isNode : Arg → Bool
  | .raw _ => false
  | .node _ => true

mutual

/-- `LazyAbstract.eval`: if `isinstance(self._value, NotEvaluatedType)`,
assign `self._value = self.calculate()` (skipped when `calculate` raises),
then return `self._value`. -/
def evalNode (n : Node) : Except Err Val × Node :=
  if cacheOf n = .notEvaluated then
    match calcNode n with
    | (.ok v, n') => (.ok v, setCache n' v)
    | (.error e, n') => (.error e, n')
  else (.ok (cacheOf n), n)

/-- The variant-specific `calculate` methods.  `LazyVal.calculate` returns
`self._value`; `LazySum.calculate` is `sum(map(lambda x: x.eval(), _terms))`;
`LazyProd.calculate` is `prod(...)`; `LazyNeg.calculate` is `-self._arg`,
which for a node argument dispatches to `LazyAbstract.__neg__`, i.e.
`-self._arg.eval()`; `LazyFunc.calculate` resolves the keyword arguments
(the eager dict comprehension), then the positional arguments (the lazy
`map` consumed while unpacking), then invokes the wrapped callable. -/
def calcNode (n : Node) : Except Err Val × Node :=
  match n with
  | .LazyVal v => (.ok v, .LazyVal v)
  | .LazySum c ts =>
    match evalSumAux 0 ts with
    | (r, ts') => (r, .LazySum c ts')
  | .LazyProd c ts =>
    match evalProdAux 1 ts with
    | (r, ts') => (r, .LazyProd c ts')
  | .LazyNeg c a =>
    match a with
    | .raw v => (.ok v.neg, .LazyNeg c (.raw v))
    | .node m =>
      match evalNode m with
      | (.ok v, m') => (.ok v.neg, .LazyNeg c (.node m'))
      | (.error e, m') => (.error e, .LazyNeg c (.node m'))
  | .LazyFunc c nm f xs ks =>
    match resolveKws ks with
    | (.error e, ks') => (.error e, .LazyFunc c nm f xs ks')
    | (.ok kvals, ks') =>
      match resolveArgs xs with
      | (.error e, xs') => (.error e, .LazyFunc c nm f xs' ks')
      | (.ok avals, xs') => (f avals kvals, .LazyFunc c nm f xs' ks')

/-- Python `sum()` over the evaluated terms: start from `0`, evaluate each
term left to right, then add it to the accumulator; adding a non-int (the
`NotEvaluated` sentinel) raises `TypeError`. -/
def evalSumAux (acc : Int) (ts : List Node) : Except Err Val × List Node :=
  match ts with
  | [] => (.ok (.int acc), [])
  | t :: rest =>
    match evalNode t with
    | (.error e, t') => (.error e, t' :: rest)
    | (.ok v, t') =>
      match v with
      | .int m =>
        match evalSumAux (acc + m) rest with
        | (r, rest') => (r, t' :: rest')
      | .notEvaluated => (.error .typeError, t' :: rest)

/-- Python `math.prod()` over the evaluated terms: start from `1`. -/
def evalProdAux (acc : Int) (ts : List Node) : Except Err Val × List Node :=
  match ts with
  | [] => (.ok (.int acc), [])
  | t :: rest =>
    match evalNode t with
    | (.error e, t') => (.error e, t' :: rest)
    | (.ok v, t') =>
      match v with
      | .int m =>
        match evalProdAux (acc * m) rest with
        | (r, rest') => (r, t' :: rest')
      | .notEvaluated => (.error .typeError, t' :: rest)

/-- The module-level `_calculate(value)`: `value.eval()` if it is a
`LazyAbstract`, otherwise `value` unchanged. -/
def resolveArg (a : Arg) : Except Err Val × Arg :=
  match a with
  | .raw v => (.ok v, .raw v)
  | .node m =>
    match evalNode m with
    | (.ok v, m') => (.ok v, .node m')
    | (.error e, m') => (.error e, .node m')

/-- `map(_calculate, self._args)`: resolve positional arguments in original
order; an exception propagates, leaving later arguments untouched. -/
def resolveArgs (xs : List Arg) : Except Err (List Val) × List Arg :=
  match xs with
  | [] => (.ok [], [])
  | a :: rest =>
    match resolveArg a with
    | (.error e, a') => (.error e, a' :: rest)
    | (.ok v, a') =>
      match resolveArgs rest with
      | (.error e, rest') => (.error e, a' :: rest')
      | (.ok vs, rest') => (.ok (v :: vs), a' :: rest')

/-- The dict comprehension over `self._kwargs.items()`: resolve each keyword
argument by name, keeping insertion order. -/
def resolveKws (ks : List (String × Arg)) :
    Except Err (List (String × Val)) × List (String × Arg) :=
  match ks with
  | [] => (.ok [], [])
  | (k, a) :: rest =>
    match resolveArg a with
    | (.error e, a') => (.error e, (k, a') :: rest)
    | (.ok v, a') =>
      match resolveKws rest with
      | (.error e, rest') => (.error e, (k, a') :: rest')
      | (.ok vs, rest') => (.ok ((k, v) :: vs), (k, a') :: rest')

end

/-- How many times a call `n.eval()` invokes `n`'s own `calculate()`: by the
branch structure of `LazyAbstract.eval`, exactly once when
`isinstance(self._value, NotEvaluatedType)` holds and never otherwise. -/
def calcInvoked (n : Node) : Nat :=
  if cacheOf n = .notEvaluated then 1 else 0

/-- `LazyAbstract.__neg__`: `return -self.eval()` — forces evaluation and
returns the negated raw value, not a node. -/
def negOp (n : Node) : Except Err Val × Node :=
  match evalNode n with
  | (.ok v, n') => (.ok v.neg, n')
  | (.error e, n') => (.error e, n')

/-- Rendering of a value by Python `str`/`repr`: decimal for ints (identical
for `str` and `repr`); `NotEvaluatedType.__repr__` yields `NotEvaluated`
(and `str` falls back to it). -/
def pyStr : Val → String
  | .int n => toString n
  | .notEvaluated => "NotEvaluated"

/-- `LazyAbstract.__str__`: `str(self.eval())` — forces evaluation. -/
def strNode (n : Node) : Except Err String × Node :=
  match evalNode n with
  | (.ok v, n') => (.ok (pyStr v), n')
  | (.error e, n') => (.error e, n')

/-- Python `str`/`repr` of a tuple from the rendered elements, including the
trailing comma of a 1-tuple. -/
def tupleStr : List String → String
  | [] => "()"
  | [s] => "(" ++ s ++ ",)"
  | ss => "(" ++ String.intercalate ", " ss ++ ")"

/-- Python `str` of a dict from rendered values, quoting the string keys. -/
def dictStr (ps : List (String × String)) : String :=
  "\x7b" ++
    String.intercalate ", " (ps.map fun p => "'" ++ p.1 ++ "': " ++ p.2) ++
  "\x7d"

mutual

/-- The `__repr__` methods.  `LazyVal`: the f-string `LazyVal({_value})`.
`LazySum`/`LazyProd`: the class name followed by `str(self._terms)`, which
renders the tuple with `repr` of each child.  `LazyNeg`: the f-string
`LazyNeg({str(self._arg)})` — note it applies `str`, so a node argument is
forced through `LazyAbstract.__str__`.  `LazyFunc`: the f-string
`LazyFunc({qualname})(args={_args}, kwargs={_kwargs})`, rendering the raw
tuple and dict.  Forced evaluations make the result fallible and the node
state threaded. -/
def reprNode (n : Node) : Except Err String × Node :=
  match n with
  | .LazyVal v => (.ok ("LazyVal(" ++ pyStr v ++ ")"), .LazyVal v)
  | .LazySum c ts =>
    match reprTerms ts with
    | (.error e, ts') => (.error e, .LazySum c ts')
    | (.ok ss, ts') => (.ok ("LazySum" ++ tupleStr ss), .LazySum c ts')
  | .LazyProd c ts =>
    match reprTerms ts with
    | (.error e, ts') => (.error e, .LazyProd c ts')
    | (.ok ss, ts') => (.ok ("LazyProd" ++ tupleStr ss), .LazyProd c ts')
  | .LazyNeg c a =>
    match a with
    | .raw v => (.ok ("LazyNeg(" ++ pyStr v ++ ")"), .LazyNeg c (.raw v))
    | .node m =>
      match strNode m with
      | (.ok s, m') => (.ok ("LazyNeg(" ++ s ++ ")"), .LazyNeg c (.node m'))
      | (.error e, m') => (.error e, .LazyNeg c (.node m'))
  | .LazyFunc c nm f xs ks =>
    match reprOfArgs xs with
    | (.error e, xs') => (.error e, .LazyFunc c nm f xs' ks)
    | (.ok ss, xs') =>
      match reprKws ks with
      | (.error e, ks') => (.error e, .LazyFunc c nm f xs' ks')
      | (.ok ps, ks') =>
        (.ok ("LazyFunc(" ++ nm ++ ")(args=" ++ tupleStr ss ++ ", kwargs="
            ++ dictStr ps ++ ")"),
          .LazyFunc c nm f xs' ks')

/-- `repr` of a stored argument: raw values render as themselves, nodes via
their `__repr__`. -/
def reprOfArg (a : Arg) : Except Err String × Arg :=
  match a with
  | .raw v => (.ok (pyStr v), .raw v)
  | .node m =>
    match reprNode m with
    | (.ok s, m') => (.ok s, .node m')
    | (.error e, m') => (.error e, .node m')

/-- Render the elements of the `_terms` tuple left to right. -/
def reprTerms (ts : List Node) : Except Err (List String) × List Node :=
  match ts with
  | [] => (.ok [], [])
  | t :: rest =>
    match reprNode t with
    | (.error e, t') => (.error e, t' :: rest)
    | (.ok s, t') =>
      match reprTerms rest with
      | (.error e, rest') => (.error e, t' :: rest')
      | (.ok ss, rest') => (.ok (s :: ss), t' :: rest')

/-- Render the elements of the `_args` tuple left to right. -/
def reprOfArgs (xs : List Arg) : Except Err (List String) × List Arg :=
  match xs with
  | [] => (.ok [], [])
  | a :: rest =>
    match reprOfArg a with
    | (.error e, a') => (.error e, a' :: rest)
    | (.ok s, a') =>
      match reprOfArgs rest with
      | (.error e, rest') => (.error e, a' :: rest')
      | (.ok ss, rest') => (.ok (s :: ss), a' :: rest')

/-- Render the `_kwargs` dict entries in insertion order. -/
def reprKws (ks : List (String × Arg)) :
    Except Err (List (String × String)) × List (String × Arg) :=
  match ks with
  | [] => (.ok [], [])
  | (k, a) :: rest =>
    match reprOfArg a with
    | (.error e, a') => (.error e, (k, a') :: rest)
    | (.ok s, a') =>
      match reprKws rest with
      | (.error e, rest') => (.error e, (k, a') :: rest')
      | (.ok ss, rest') => (.ok ((k, s) :: ss), (k, a') :: rest')

end

/-- Python `a + b` for two nodes.  If `a` is a `LazySum`, `LazySum.__add__`
flattens (`LazySum(*self._terms, *other._terms)` when `b` is also a
`LazySum`, else `LazySum(*self._terms, other)`).  Otherwise
`LazyAbstract.__add__` returns `NotImplemented` for a node operand and
Python falls back to the inherited `LazyAbstract.__radd__`, which builds the
two-child `LazySum(other, self)` — `LazySum` does not override `__radd__`,
so no flattening happens on this path even when `b` is a `LazySum`. -/
def addOp : Node → Node → Node
  | .LazySum _ ts, .LazySum _ ts2 => .LazySum .notEvaluated (ts ++ ts2)
  | .LazySum _ ts, b => .LazySum .notEvaluated (ts ++ [b])
  | a, b => .LazySum .notEvaluated [a, b]

/-- Python `a + v` for a node and a raw value: `LazySum.__add__` appends
`LazyVal(other)`; `LazyAbstract.__add__` builds `LazySum(self, other)`,
whose constructor wraps the raw value. -/
def addRawOp : Node → Val → Node
  | .LazySum _ ts, v => .LazySum .notEvaluated (ts ++ [.LazyVal v])
  | a, v => .LazySum .notEvaluated [a, .LazyVal v]

/-- Python `v + a` for a raw value and a node: the raw value's `__add__`
returns `NotImplemented`, and `LazyAbstract.__radd__` builds
`LazySum(other, self)`. -/
def rawAddOp (v : Val) (a : Node) : Node :=
  .LazySum .notEvaluated [.LazyVal v, a]

/-- Python `a * b` for two nodes: symmetric to `addOp` with
`LazyProd.__mul__` / `LazyAbstract.__rmul__`. -/
def mulOp : Node → Node → Node
  | .LazyProd _ ts, .LazyProd _ ts2 => .LazyProd .notEvaluated (ts ++ ts2)
  | .LazyProd _ ts, b => .LazyProd .notEvaluated (ts ++ [b])
  | a, b => .LazyProd .notEvaluated [a, b]

/-- Python `a * v` for a node and a raw value. -/
def mulRawOp : Node → Val → Node
  | .LazyProd _ ts, v => .LazyProd .notEvaluated (ts ++ [.LazyVal v])
  | a, v => .LazyProd .notEvaluated [a, .LazyVal v]

/-- Python `v * a` for a raw value and a node, via `LazyAbstract.__rmul__`. -/
def rawMulOp (v : Val) (a : Node) : Node :=
  .LazyProd .notEvaluated [.LazyVal v, a]

/-- Python `a - b` for two nodes: `LazyAbstract.__sub__` defers,
`LazyAbstract.__rsub__` builds `LazySum(other, LazyNeg(self))`. -/
def subOp (a b : Node) : Node :=
  .LazySum .notEvaluated [a, .LazyNeg .notEvaluated (.node b)]

/-- Python `a - v`: `LazyAbstract.__sub__` builds
`LazySum(self, LazyNeg(other))`, where `LazyNeg` stores the raw value. -/
def subRawOp (a : Node) (v : Val) : Node :=
  .LazySum .notEvaluated [a, .LazyNeg .notEvaluated (.raw v)]

/-- Python `v - a`, via `LazyAbstract.__rsub__`. -/
def rawSubOp (v : Val) (a : Node) : Node :=
  .LazySum .notEvaluated [.LazyVal v, .LazyNeg .notEvaluated (.node a)]

/-- `LazyAbstract.__eq__`.  `refEq` is the truth value of the reference
identity test `self is other` (not derivable from the structural model);
when it holds the method returns `True` without touching either operand.
Otherwise both sides are forced and the evaluated values compared (a raw
operand is compared against the evaluated left value directly). -/
def eqOp (a : Node) (other : Arg) (refEq : Bool) :
    Except Err Bool × Node × Arg :=
  if refEq then (.ok true, a, other)
  else
    match other with
    | .node b =>
      match evalNode a with
      | (.error e, a') => (.error e, a', .node b)
      | (.ok va, a') =>
        match evalNode b with
        | (.error e, b') => (.error e, a', .node b')
        | (.ok vb, b') => (.ok (va = vb), a', .node b')
    | .raw v =>
      match evalNode a with
      | (.error e, a') => (.error e, a', .raw v)
      | (.ok va, a') => (.ok (va = v), a', .raw v)

/-- `LazyAbstract.__ne__`: `False` on reference identity, else the negated
value comparison. -/
def neOp (a : Node) (other : Arg) (refEq : Bool) :
    Except Err Bool × Node × Arg :=
  if refEq then (.ok false, a, other)
  else
    match other with
    | .node b =>
      match evalNode a with
      | (.error e, a') => (.error e, a', .node b)
      | (.ok va, a') =>
        match evalNode b with
        | (.error e, b') => (.error e, a', .node b')
        | (.ok vb, b') => (.ok (!(va = vb : Bool)), a', .node b')
    | .raw v =>
      match evalNode a with
      | (.error e, a') => (.error e, a', .raw v)
      | (.ok va, a') => (.ok (!(va = v : Bool)), a', .raw v)

/-- `LazyAbstract.__hash__`: `raise NotImplementedError`, inherited unchanged
by every concrete variant (none overrides it). -/
def hashOp (_ : Node) : Except Err Nat :=
  .error .notImplementedError

/-- `LazyVal.__init__`: store the payload directly in the `_value` slot. -/
def mkLazyVal (v : Val) : Node := .LazyVal v

/-- `LazySum.__init__`: wrap each non-node argument in a `LazyVal` and store
the tuple; the `_value` slot starts as `NotEvaluated`. -/
def mkLazySum (xs : List Arg) : Node :=
  .LazySum .notEvaluated (xs.map toNode)

/-- `LazyProd.__init__`: same wrapping as `LazySum.__init__`. -/
def mkLazyProd (xs : List Arg) : Node :=
  .LazyProd .notEvaluated (xs.map toNode)

/-- `LazyNeg.__init__`: store the argument as passed, raw or node. -/
def mkLazyNeg (a : Arg) : Node := .LazyNeg .notEvaluated a

/-- The constructor returned by `LazyFuncFactory(func)`, i.e.
`LazyFunc.__init__`: store `_args` and `_kwargs` exactly as passed (no
wrapping, no resolution, no call to `func`); the `_value` slot starts as
`NotEvaluated`. -/
def mkLazyFunc (nm : String) (f : Fn) (xs : List Arg)
    (ks : List (String × Arg)) : Node :=
  .LazyFunc .notEvaluated nm f xs ks

/-- The spec's end-to-end example callable: `double(x) = x * 2`. -/
def doubleFn : Fn := fun xs _ =>
  match xs with
  | [Val.int x] => .ok (.int (x * 2))
  | _ => .error .typeError

theorem cacheOf_setCache (n : Node) (v : Val) : cacheOf (setCache n v) = v := by
  cases n <;> rfl

theorem evalNode_ok_cache {n n' : Node} {v : Val}
    (h : evalNode n = (.ok v, n')) : cacheOf n' = v := by
  rw [evalNode] at h
  by_cases hc : cacheOf n = Val.notEvaluated
  · rw [if_pos hc] at h
    rcases hcalc : calcNode n with ⟨r, m⟩
    rw [hcalc] at h
    cases r with
    | ok w =>
      simp only [Prod.mk.injEq, Except.ok.injEq] at h
      obtain ⟨hv, hn⟩ := h
      rw [← hn, cacheOf_setCache]
      exact hv
    | error e => simp at h
  · rw [if_neg hc] at h
    simp only [Prod.mk.injEq, Except.ok.injEq] at h
    obtain ⟨hv, hn⟩ := h
    rw [← hn]
    exact hv

theorem evalNode_cached {n : Node} (h : cacheOf n ≠ Val.notEvaluated) :
    evalNode n = (.ok (cacheOf n), n) := by
  rw [evalNode, if_neg h]

theorem addOp_not_sum {a : Node} (b : Node) (ha : isSum a = false) :
    addOp a b = .LazySum .notEvaluated [a, b] := by
  cases a <;> first | rfl | simp [isSum] at ha

theorem addOp_sum_terms {c : Val} {ts : List Node} (b : Node)
    (hb : isSum b = false) :
    addOp (.LazySum c ts) b = .LazySum .notEvaluated (ts ++ [b]) := by
  cases b <;> first | rfl | simp [isSum] at hb

theorem mulOp_not_prod {a : Node} (b : Node) (ha : isProd a = false) :
    mulOp a b = .LazyProd .notEvaluated [a, b] := by
  cases a <;> first | rfl | simp [isProd] at ha

theorem mulOp_prod_terms {c : Val} {ts : List Node} (b : Node)
    (hb : isProd b = false) :
    mulOp (.LazyProd c ts) b = .LazyProd .notEvaluated (ts ++ [b]) := by
  cases b <;> first | rfl | simp [isProd] at hb

/-- C4: for every node `n`, the comparison `n == n` (where the reference
identity test `self is other` holds) returns `True` and `n != n` returns
`False`, with both operands returned untouched: no evaluation happens and no
cache is written, so self-comparison succeeds even when evaluating `n` would
raise. -/
theorem claim_C4 (n : Node) :
    eqOp n (.node n) true = (.ok true, n, .node n) ∧
    neOp n (.node n) true = (.ok false, n, .node n) :=
  ⟨rfl, rfl⟩

/-- C8: invoking the hash operation on any node of any variant raises
`NotImplementedError` (the "unsupported operation" failure) instead of
returning a hash value; `__hash__` is inherited from `LazyAbstract` by every
variant and none overrides it. -/
theorem claim_C8 (n : Node) : hashOp n = .error .notImplementedError :=
  rfl

/-- C6: `LazyNeg.calculate` evaluates the wrapped child first and then
negates the evaluated result: for a node child it returns the negation of
the child's evaluated value (with the child's cache written by that
evaluation), and for a raw child it returns the negation of the value the
`LazyVal`-wrapped constant would evaluate to. -/
theorem claim_C6 :
    (∀ (c : Val) (m : Node),
      calcNode (.LazyNeg c (.node m)) =
        ((evalNode m).1.map Val.neg, .LazyNeg c (.node (evalNode m).2))) ∧
    (∀ c v : Val,
      calcNode (.LazyNeg c (.raw v)) =
        ((evalNode (.LazyVal v)).1.map Val.neg, .LazyNeg c (.raw v))) := by
  constructor
  · intro c m
    rcases h : evalNode m with ⟨r, m'⟩
    cases r <;> simp [calcNode, h, Except.map]
  · intro c v
    cases v <;> simp [calcNode, evalNode, cacheOf, setCache, Val.neg, Except.map]

/-- C5: fails for function-call nodes.  The constructor generated by
`LazyFuncFactory` stores its arguments exactly as passed: a raw value passed
as a positional argument is stored raw, not wrapped in a `LazyVal`. -/
theorem claim_C5_cex :
    argsOf (mkLazyFunc "double" doubleFn [.raw (.int 5)] []) =
      [.raw (.int 5)] ∧
    Arg.isNode (.raw (.int 5)) = false :=
  ⟨rfl, rfl⟩

/-- C5 amended: `LazySum` and `LazyProd` wrap every raw argument in a
`LazyVal` before storing it, so their stored children are always nodes; the
function-call node instead stores its positional and keyword arguments
exactly as passed — raw values stay raw and are only resolved when
`calculate` runs. -/
theorem claim_C5_amended :
    (∀ xs : List Arg,
      termsOf (mkLazySum xs) = xs.map toNode ∧
      cacheOf (mkLazySum xs) = .notEvaluated) ∧
    (∀ xs : List Arg,
      termsOf (mkLazyProd xs) = xs.map toNode ∧
      cacheOf (mkLazyProd xs) = .notEvaluated) ∧
    (∀ v : Val, toNode (.raw v) = .LazyVal v) ∧
    (∀ m : Node, toNode (.node m) = m) ∧
    (∀ (nm : String) (f : Fn) (xs : List Arg) (ks : List (String × Arg)),
      argsOf (mkLazyFunc nm f xs ks) = xs ∧
      kwargsOf (mkLazyFunc nm f xs ks) = ks) :=
  ⟨fun _ => ⟨rfl, rfl⟩, fun _ => ⟨rfl, rfl⟩, fun _ => rfl, fun _ => rfl,
    fun _ _ _ _ => ⟨rfl, rfl⟩⟩

/-- C2: fails for the right association.  With `a = LazyVal 1`,
`b = LazyVal 2`, `c = LazyVal 3`, the composition `(a + b) + c` is a flat
3-child Sum but `a + (b + c)` is not: `LazyAbstract.__add__` returns
`NotImplemented` for a node operand and — although its comment defers to
"LazySums specialized `__radd__`" — `LazySum` defines no `__radd__`, so the
inherited one builds the nested 2-child `LazySum(a, b + c)`. -/
theorem claim_C2_cex :
    addOp (Node.LazyVal (.int 1))
        (addOp (Node.LazyVal (.int 2)) (Node.LazyVal (.int 3))) =
      Node.LazySum .notEvaluated [Node.LazyVal (.int 1),
        Node.LazySum .notEvaluated
          [Node.LazyVal (.int 2), Node.LazyVal (.int 3)]] ∧
    numTerms (addOp (Node.LazyVal (.int 1))
      (addOp (Node.LazyVal (.int 2)) (Node.LazyVal (.int 3)))) ≠ 3 ∧
    numTerms (addOp (addOp (Node.LazyVal (.int 1)) (Node.LazyVal (.int 2)))
      (Node.LazyVal (.int 3))) = 3 :=
  ⟨rfl, by decide, rfl⟩

/-- General shape of the two association orders: for node operands with `a`
and `c` not themselves Sum nodes, `(a + b) + c` produces a flat `LazySum`
with exactly 3 children, but `a + (b + c)` produces a 2-child `LazySum`
whose second child is the nested sum `b + c`: flattening happens only when
the left operand of `+` is already a `LazySum`; symmetrically for `*` and
`LazyProd`. -/
theorem assocShape :
    (∀ a b c : Node, isSum a = false → isSum c = false →
      numTerms (addOp (addOp a b) c) = 3 ∧
      numTerms (addOp a (addOp b c)) = 2) ∧
    (∀ a b c : Node, isProd a = false → isProd c = false →
      numTerms (mulOp (mulOp a b) c) = 3 ∧
      numTerms (mulOp a (mulOp b c)) = 2) := by
  constructor
  · intro a b c ha hc
    constructor
    · rw [addOp_not_sum b ha, addOp_sum_terms c hc]
      simp [numTerms, termsOf]
    · rw [addOp_not_sum (addOp b c) ha]
      simp [numTerms, termsOf]
  · intro a b c ha hc
    constructor
    · rw [mulOp_not_prod b ha, mulOp_prod_terms c hc]
      simp [numTerms, termsOf]
    · rw [mulOp_not_prod (mulOp b c) ha]
      simp [numTerms, termsOf]

theorem assocShapeInst :
    (numTerms (addOp (addOp (Node.LazyVal (.int 1)) (Node.LazyVal (.int 2)))
        (Node.LazyVal (.int 3))) = 3 ∧
      numTerms (addOp (Node.LazyVal (.int 1))
        (addOp (Node.LazyVal (.int 2)) (Node.LazyVal (.int 3)))) = 2) ∧
    (numTerms (mulOp (mulOp (Node.LazyVal (.int 1)) (Node.LazyVal (.int 2)))
        (Node.LazyVal (.int 3))) = 3 ∧
      numTerms (mulOp (Node.LazyVal (.int 1))
        (mulOp (Node.LazyVal (.int 2)) (Node.LazyVal (.int 3)))) = 2) :=
  ⟨assocShape.1 _ _ _ rfl rfl, assocShape.2 _ _ _ rfl rfl⟩

/-- C3: fails for unary minus.  On a Sum node with unset cache,
`LazyAbstract.__neg__` forces evaluation (the operand comes back with its
cache written, so it is not left unchanged) and returns the negated raw
value rather than a node. -/
theorem claim_C3_cex :
    negOp (Node.LazySum .notEvaluated [.LazyVal (.int 2)]) =
      (.ok (.int (-2)), Node.LazySum (.int 2) [.LazyVal (.int 2)]) ∧
    Node.LazySum (.int 2) [Node.LazyVal (.int 2)] ≠
      Node.LazySum .notEvaluated [Node.LazyVal (.int 2)] := by
  constructor
  · simp [negOp, evalNode, calcNode, evalSumAux, cacheOf, setCache, Val.neg]
  · simp

/-- C3 amended: the binary composition operators `+` and `*` construct and
return a new Sum/Product node with unset cache whose children are the
operands (or their term lists) stored verbatim and unevaluated; unary `-`
instead forces evaluation of its operand and returns the negated raw value,
not a node. -/
theorem claim_C3_amended :
    (∀ a b : Node,
      addOp a b = .LazySum .notEvaluated
        (sumTermsOf a ++ (if isSum a then sumTermsOf b else [b])) ∧
      mulOp a b = .LazyProd .notEvaluated
        (prodTermsOf a ++ (if isProd a then prodTermsOf b else [b]))) ∧
    (∀ (a : Node) (v : Val),
      addRawOp a v = .LazySum .notEvaluated (sumTermsOf a ++ [.LazyVal v]) ∧
      mulRawOp a v = .LazyProd .notEvaluated (prodTermsOf a ++ [.LazyVal v]) ∧
      rawAddOp v a = .LazySum .notEvaluated [.LazyVal v, a] ∧
      rawMulOp v a = .LazyProd .notEvaluated [.LazyVal v, a]) ∧
    (∀ n : Node,
      negOp n = ((evalNode n).1.map Val.neg, (evalNode n).2)) := by
  refine ⟨?_, ?_, ?_⟩
  · intro a b
    constructor
    · cases a <;> cases b <;>
        simp [addOp, sumTermsOf, isSum, termsOf]
    · cases a <;> cases b <;>
        simp [mulOp, prodTermsOf, isProd, termsOf]
  · intro a v
    refine ⟨?_, ?_, rfl, rfl⟩
    · cases a <;> simp [addRawOp, sumTermsOf, isSum, termsOf]
    · cases a <;> simp [mulRawOp, prodTermsOf, isProd, termsOf]
  · intro n
    rcases h : evalNode n with ⟨r, n'⟩
    cases r <;> simp [negOp, h, Except.map]

/-- C1: fails for a node whose computed value is a `NotEvaluatedType`
instance.  For `LazyVal(NotEvaluated)`, `eval()` returns the sentinel and
leaves the node in a state where the cache still tests as unset, so the
node's `calculate()` is invoked once per `eval()` call: two calls invoke it
twice, contradicting "at most once across any number of eval() calls". -/
theorem claim_C1_cex :
    evalNode (Node.LazyVal .notEvaluated) =
      (.ok .notEvaluated, Node.LazyVal .notEvaluated) ∧
    calcInvoked (Node.LazyVal .notEvaluated) +
      calcInvoked (evalNode (Node.LazyVal .notEvaluated)).2 = 2 := by
  constructor
  · simp [evalNode, calcNode, cacheOf, setCache]
  · simp [evalNode, calcNode, cacheOf, setCache, calcInvoked]

/-- C1 amended: for every node whose `eval()` returns a value that is not a
`NotEvaluatedType` instance, a second `eval()` returns the same value,
leaves the node unchanged, and does not invoke `calculate()` again (the
first call stored the value in the cache). -/
theorem claim_C1_amended (n : Node) {n' : Node} {v : Val}
    (h : evalNode n = (.ok v, n')) (hv : v ≠ .notEvaluated) :
    evalNode n' = (.ok v, n') ∧ calcInvoked n' = 0 := by
  have hcache : cacheOf n' = v := evalNode_ok_cache h
  have hne : cacheOf n' ≠ .notEvaluated := by rw [hcache]; exact hv
  constructor
  · rw [evalNode_cached hne, hcache]
  · simp [calcInvoked, if_neg hne]

theorem claim_C1_witness :
    evalNode (Node.LazyVal (.int 5)) =
      (.ok (.int 5), Node.LazyVal (.int 5)) ∧
    calcInvoked (Node.LazyVal (.int 5)) = 0 :=
  claim_C1_amended (Node.LazyVal (.int 5)) (by simp [evalNode, cacheOf])
    (by simp)

/-- C10: `eval()` tests "is the cache set?" by an instance-of check against
`NotEvaluatedType`: after a successful `eval()` the returned value is stored
in the `_value` slot, and the next `eval()` invokes `calculate()` exactly
when that stored value is the `NotEvaluated` sentinel — so memoization holds
precisely for computed values that are not `NotEvaluatedType` instances. -/
theorem claim_C10 (n : Node) {n' : Node} {v : Val}
    (h : evalNode n = (.ok v, n')) :
    cacheOf n' = v ∧
    calcInvoked n' = (if v = .notEvaluated then 1 else 0) := by
  have hcache : cacheOf n' = v := evalNode_ok_cache h
  exact ⟨hcache, by rw [calcInvoked, hcache]⟩

theorem claim_C10_witness :
    cacheOf (Node.LazyVal .notEvaluated) = .notEvaluated ∧
    calcInvoked (Node.LazyVal .notEvaluated) =
      (if (Val.notEvaluated : Val) = .notEvaluated then 1 else 0) :=
  claim_C10 (Node.LazyVal .notEvaluated)
    (by simp [evalNode, calcNode, cacheOf, setCache])

/-- C7: a `LazyFuncFactory`-wrapped callable is not invoked at construction
(the node stores the callable and its arguments untouched, cache unset);
`eval()` resolves the keyword arguments and the positional arguments in
original order — evaluating node arguments, passing raw ones through — then
returns the callable applied to the resolved arguments and stores that
result in the cache. -/
theorem claim_C7 (nm : String) (f : Fn) (xs : List Arg)
    (ks : List (String × Arg)) (kvals : List (String × Val))
    (ks' : List (String × Arg)) (avals : List Val) (xs' : List Arg) (v : Val)
    (hk : resolveKws ks = (.ok kvals, ks'))
    (ha : resolveArgs xs = (.ok avals, xs'))
    (hf : f avals kvals = .ok v) :
    cacheOf (mkLazyFunc nm f xs ks) = .notEvaluated ∧
    argsOf (mkLazyFunc nm f xs ks) = xs ∧
    kwargsOf (mkLazyFunc nm f xs ks) = ks ∧
    evalNode (mkLazyFunc nm f xs ks) =
      (.ok v, .LazyFunc v nm f xs' ks') := by
  refine ⟨rfl, rfl, rfl, ?_⟩
  rw [mkLazyFunc, evalNode]
  simp [calcNode, cacheOf, setCache, hk, ha, hf]

theorem claim_C7_witness :
    cacheOf (mkLazyFunc "double" doubleFn [.raw (.int 5)] []) =
      .notEvaluated ∧
    argsOf (mkLazyFunc "double" doubleFn [.raw (.int 5)] []) =
      [.raw (.int 5)] ∧
    kwargsOf (mkLazyFunc "double" doubleFn [.raw (.int 5)] []) = [] ∧
    evalNode (mkLazyFunc "double" doubleFn [.raw (.int 5)] []) =
      (.ok (.int 10), .LazyFunc (.int 10) "double" doubleFn [.raw (.int 5)] []) :=
  claim_C7 "double" doubleFn [.raw (.int 5)] [] [] [] [.int 5]
    [.raw (.int 5)] (.int 10)
    (by simp [resolveKws]) (by simp [resolveArgs, resolveArg])
    (by simp [doubleFn])

/-- C9: the code contradicts the stated intent for the debug representation.
`LazyNeg.__repr__` formats its stored argument with `str(...)`, which for a
node argument goes through `LazyAbstract.__str__` and forces the child's
evaluation: taking `repr` of `LazyNeg(LazySum(2))` writes the child Sum's
cache and prints the evaluated value `2` instead of an unevaluated
placeholder (while `str`, shown on the same child, is meant to force). -/
theorem claim_C9_bug :
    reprNode (Node.LazyNeg .notEvaluated
        (.node (Node.LazySum .notEvaluated [Node.LazyVal (.int 2)]))) =
      (.ok "LazyNeg(2)",
        Node.LazyNeg .notEvaluated
          (.node (Node.LazySum (.int 2) [Node.LazyVal (.int 2)]))) ∧
    strNode (Node.LazySum .notEvaluated [Node.LazyVal (.int 2)]) =
      (.ok "2", Node.LazySum (.int 2) [Node.LazyVal (.int 2)]) := by
  constructor
  · simp [reprNode, strNode, evalNode, calcNode, evalSumAux, cacheOf,
      setCache, pyStr, show toString (2 : Int) = "2" from rfl]
  · simp [strNode, evalNode, calcNode, evalSumAux, cacheOf, setCache,
      pyStr, show toString (2 : Int) = "2" from rfl]
